import Mathlib

/-
Verification of `src/fixedpointmath/fixed_point_math.py`.

The module under verification provides six operations (`clip`, `exp`,
`isclose`, `maximum`, `minimum`, `sqrt`), each polymorphic over three
numeric variants: the FixedPoint decimal type, native `int`, and native
`float`.  We embed each variant of each operation as its own Lean
function, mirroring the Python control flow line by line.  Fallible
paths (Python exceptions) are embedded with `Except Err`.

The FixedPoint class itself (`fixed_point.py`) and the scaled-integer
exponential backend (`fixed_point_integer_math.py`) are external
collaborators that are not part of the verified sources; their
behaviour is modelled from the specification (see the individual
doc comments starting with "Modelled from the spec").
-/

/-- The error outcomes the module can produce.  In Python these are
`ValueError` (for range, tolerance and domain violations), `TypeError`
(from the native `max`/`min` builtin given a lone non-iterable scalar)
and `IndexError` (from accessing `args[0]` of an empty argument tuple). -/
inductive Err where
  | invalidRange
  | invalidTolerance
  | domainError
  | typeError
  | indexError
deriving DecidableEq

/-- Modelled from the spec: the external FixedPoint type
(`fixed_point.py`, not among the verified sources).  A value wraps a
fixed-scale integer (scaling factor 1e18) and carries three
distinguished non-finite states: positive infinity, negative infinity
and NaN.  Invariant from the spec: exactly one of
{finite, +inf, -inf, NaN} holds. -/
inductive FixedPoint where
  | finite (scaled : Int)
  | posInf
  | negInf
  | nan
deriving DecidableEq

namespace FixedPoint

/-- Modelled from the spec: the FixedPoint "is finite" predicate.
NaN and the two infinities are non-finite. -/
def isfinite : FixedPoint → Bool
  | finite _ => true
  | _ => false

/-- Modelled from the spec: the FixedPoint "is NaN" predicate. -/
def is_nan : FixedPoint → Bool
  | nan => true
  | _ => false

/-- Modelled from the spec: FixedPoint non-strict ordering `a >= b`.
Ordering is total except NaN, which compares unordered to everything
including itself; the infinities are the absolute extremes. -/
def ge : FixedPoint → FixedPoint → Bool
  | nan, _ => false
  | _, nan => false
  | posInf, _ => true
  | _, posInf => false
  | _, negInf => true
  | negInf, _ => false
  | finite a, finite b => decide (b ≤ a)

/-- Modelled from the spec: FixedPoint equality.  NaN is unequal to
everything including itself; infinities of the same sign are equal;
finite values compare by scaled value. -/
def beq : FixedPoint → FixedPoint → Bool
  | finite a, finite b => decide (a = b)
  | posInf, posInf => true
  | negInf, negInf => true
  | _, _ => false

/-- Modelled from the spec: FixedPoint non-strict ordering `a <= b`. -/
def le (a b : FixedPoint) : Bool := ge b a

/-- Modelled from the spec: FixedPoint strict ordering `a > b`. -/
def gt (a b : FixedPoint) : Bool := ge a b && !(beq a b)

/-- Modelled from the spec: FixedPoint strict ordering `a < b`. -/
def lt (a b : FixedPoint) : Bool := gt b a

/-- Modelled from the spec: FixedPoint subtraction with IEEE-754-like
non-finite semantics (NaN propagates; inf minus inf of the same sign is
NaN).  Only the finite-minus-finite case is reachable from the verified
module (`isclose` subtracts only after both operands passed the
finiteness check). -/
def sub : FixedPoint → FixedPoint → FixedPoint
  | nan, _ => nan
  | _, nan => nan
  | posInf, posInf => nan
  | posInf, _ => posInf
  | negInf, negInf => nan
  | negInf, _ => negInf
  | finite _, posInf => negInf
  | finite _, negInf => posInf
  | finite a, finite b => finite (a - b)

/-- Modelled from the spec: FixedPoint absolute value. -/
def abs : FixedPoint → FixedPoint
  | finite a => finite |a|
  | nan => nan
  | _ => posInf

end FixedPoint

/-- Shallow embedding of IEEE-754 doubles: every double value is either
finite (carrying its exact rational value), an infinity, or NaN.
Comparisons and equality of doubles are exact, so on this embedding they
coincide with rational comparisons of the finite payloads.  Rounding of
float arithmetic is not modelled; no claim below depends on a rounded
finite result. -/
inductive PFloat where
  | finite (val : ℚ)
  | posInf
  | negInf
  | nan
deriving DecidableEq

namespace PFloat

/-- `math.isfinite` on a double. -/
def isfinite : PFloat → Bool
  | finite _ => true
  | _ => false

/-- Double non-strict ordering `a >= b`: NaN is unordered. -/
def ge : PFloat → PFloat → Bool
  | nan, _ => false
  | _, nan => false
  | posInf, _ => true
  | _, posInf => false
  | _, negInf => true
  | negInf, _ => false
  | finite a, finite b => decide (b ≤ a)

/-- Double equality: NaN is unequal to everything including itself. -/
def beq : PFloat → PFloat → Bool
  | finite a, finite b => decide (a = b)
  | posInf, posInf => true
  | negInf, negInf => true
  | _, _ => false

/-- Double non-strict ordering `a <= b`. -/
def le (a b : PFloat) : Bool := ge b a

/-- Double strict ordering `a > b`. -/
def gt (a b : PFloat) : Bool := ge a b && !(beq a b)

/-- Double strict ordering `a < b`. -/
def lt (a b : PFloat) : Bool := gt b a

/-- Double subtraction, with exact rational arithmetic on the finite
case (rounding is not modelled; no claim depends on the rounded value). -/
def sub : PFloat → PFloat → PFloat
  | nan, _ => nan
  | _, nan => nan
  | posInf, posInf => nan
  | posInf, _ => posInf
  | negInf, negInf => nan
  | negInf, _ => negInf
  | finite _, posInf => negInf
  | finite _, negInf => posInf
  | finite a, finite b => finite (a - b)

/-- Double absolute value. -/
def abs : PFloat → PFloat
  | finite a => finite |a|
  | nan => nan
  | _ => posInf

end PFloat

/-- Truncation of a rational toward zero, the semantics of Python's
`int(...)` constructor applied to a float. -/
def pyTrunc (q : ℚ) : Int := if 0 ≤ q then q.floor else q.ceil

/-- The running-extremum scan shared by the `maximum`/`minimum`
embeddings: walk the list, replacing the current extremum whenever
`repl arg cur` holds. -/
def scanBy (repl : α → α → Bool) : α → List α → α
  | cur, [] => cur
  | cur, a :: rest => scanBy repl (if repl a cur then a else cur) rest

/-! ## The FixedPoint variant of the six operations
(`fixed_point_math.py`, FixedPoint branch of each function). -/

namespace FPOps

/-- The FixedPoint loop of `maximum`: short-circuit on the first NaN
argument, otherwise replace the running maximum whenever
`arg >= current_max`. -/
def maxLoop : FixedPoint → List FixedPoint → FixedPoint
  | cur, [] => cur
  | cur, a :: rest =>
    if a.is_nan then a else maxLoop (if a.ge cur then a else cur) rest

/-- The FixedPoint loop of `minimum`: short-circuit on the first NaN
argument, otherwise replace the running minimum whenever
`arg <= current_min`. -/
def minLoop : FixedPoint → List FixedPoint → FixedPoint
  | cur, [] => cur
  | cur, a :: rest =>
    if a.is_nan then a else minLoop (if a.le cur then a else cur) rest

/-- `maximum(*args)` on FixedPoint arguments: `args[0]` of an empty
tuple raises IndexError; otherwise scan from the `-inf` sentinel. -/
def maximum (args : List FixedPoint) : Except Err FixedPoint :=
  match args with
  | [] => .error .indexError
  | _ :: _ => .ok (maxLoop .negInf args)

/-- `minimum(*args)` on FixedPoint arguments: scan from the `+inf`
sentinel. -/
def minimum (args : List FixedPoint) : Except Err FixedPoint :=
  match args with
  | [] => .error .indexError
  | _ :: _ => .ok (minLoop .posInf args)

/-- `clip(x, low, high)` on FixedPoint arguments: raise when
`low > high`, otherwise `minimum(maximum(x, low), high)`. -/
def clip (x low high : FixedPoint) : Except Err FixedPoint :=
  if low.gt high then .error .invalidRange
  else
    match maximum [x, low] with
    | .error e => .error e
    | .ok m => minimum [m, high]

/-- `isclose(a, b, abs_tol)` on FixedPoint arguments: if `a` or `b` is
non-finite return `a == b`; then validate the tolerance; then compare
`abs(a - b) <= abs_tol`. -/
def isclose (a b tol : FixedPoint) : Except Err Bool :=
  if !a.isfinite || !b.isfinite then .ok (a.beq b)
  else if !tol.isfinite then .error .invalidTolerance
  else .ok (((a.sub b).abs).le tol)

/-- `exp(x)` on a FixedPoint argument: non-finite inputs are returned
unchanged; a finite input delegates its scaled value to the
integer-math backend (taken as a parameter, since the backend is an
external collaborator). -/
def exp (backend : Int → Int) : FixedPoint → FixedPoint
  | .finite s => .finite (backend s)
  | y => y

/-- Modelled from the spec: conversion of a finite FixedPoint scaled
value to a double (`float(x)` inside `math.sqrt`).  The conversion is
exact in this embedding; only its sign and the delegation structure
matter for the claims. -/
def toFloat (s : Int) : ℚ := (s : ℚ) / 10 ^ 18

/-- Modelled from the spec: FixedPoint construction from a finite
double result (re-wrapping the value returned by `math.sqrt`). -/
def ofFloat (q : ℚ) : FixedPoint := .finite (q * 10 ^ 18).floor

/-- `sqrt(x)` on a FixedPoint argument: delegate to the native
`math.sqrt` (whose finite nonnegative branch is the parameter
`fsqrt`).  Native sqrt maps NaN to NaN and +inf to +inf, and raises
for every negative input including -inf. -/
def sqrt (fsqrt : ℚ → ℚ) : FixedPoint → Except Err FixedPoint
  | .nan => .ok .nan
  | .posInf => .ok .posInf
  | .negInf => .error .domainError
  | .finite s =>
    if toFloat s < 0 then .error .domainError
    else .ok (ofFloat (fsqrt (toFloat s)))

end FPOps

/-! ## The int variant
(`fixed_point_math.py`, `isinstance(args[0], int)` branches). -/

namespace IntOps

/-- `maximum(*args)` on int arguments delegates to the `max` builtin.
With a single argument the unpacked call is `max(x)` on a non-iterable
scalar, a TypeError; with two or more it keeps the first value and
replaces it on strictly greater values. -/
def maximum : List Int → Except Err Int
  | [] => .error .indexError
  | [_] => .error .typeError
  | x :: rest => .ok (scanBy (fun a cur => decide (cur < a)) x rest)

/-- `minimum(*args)` on int arguments delegates to the `min` builtin. -/
def minimum : List Int → Except Err Int
  | [] => .error .indexError
  | [_] => .error .typeError
  | x :: rest => .ok (scanBy (fun a cur => decide (a < cur)) x rest)

/-- `clip(x, low, high)` on int arguments. -/
def clip (x low high : Int) : Except Err Int :=
  if high < low then .error .invalidRange
  else
    match maximum [x, low] with
    | .error e => .error e
    | .ok m => minimum [m, high]

/-- `isclose(a, b, abs_tol)` on int arguments: no finiteness condition
can fire for ints, so the result is always `abs(a - b) <= abs_tol`. -/
def isclose (a b tol : Int) : Except Err Bool :=
  .ok (decide (|a - b| ≤ tol))

/-- `sqrt(x)` on an int argument: `int(math.sqrt(x))`, i.e. native
float sqrt followed by truncation toward zero; negative inputs raise. -/
def sqrt (fsqrt : ℚ → ℚ) (x : Int) : Except Err Int :=
  if (x : ℚ) < 0 then .error .domainError
  else .ok (pyTrunc (fsqrt (x : ℚ)))

end IntOps

/-! ## The float variant
(`fixed_point_math.py`, `isinstance(args[0], float)` branches). -/

namespace FloatOps

/-- `maximum(*args)` on float arguments delegates to the `max`
builtin: single argument is a TypeError; otherwise keep the first value
and replace it on strictly greater values (NaN comparisons are false,
so the builtin's NaN behaviour is order dependent). -/
def maximum : List PFloat → Except Err PFloat
  | [] => .error .indexError
  | [_] => .error .typeError
  | x :: rest => .ok (scanBy (fun a cur => a.gt cur) x rest)

/-- `minimum(*args)` on float arguments delegates to the `min` builtin. -/
def minimum : List PFloat → Except Err PFloat
  | [] => .error .indexError
  | [_] => .error .typeError
  | x :: rest => .ok (scanBy (fun a cur => a.lt cur) x rest)

/-- `clip(x, low, high)` on float arguments. -/
def clip (x low high : PFloat) : Except Err PFloat :=
  if low.gt high then .error .invalidRange
  else
    match maximum [x, low] with
    | .error e => .error e
    | .ok m => minimum [m, high]

/-- `isclose(a, b, abs_tol)` on float arguments. -/
def isclose (a b tol : PFloat) : Except Err Bool :=
  if !a.isfinite || !b.isfinite then .ok (a.beq b)
  else if !tol.isfinite then .error .invalidTolerance
  else .ok (((a.sub b).abs).le tol)

/-- `sqrt(x)` on a float argument: `float(math.sqrt(x))`.  Native sqrt
maps NaN to NaN and +inf to +inf, raises for negative inputs including
-inf, and computes a rounded double sqrt (the parameter `fsqrt`) on
finite nonnegative inputs. -/
def sqrt (fsqrt : ℚ → ℚ) : PFloat → Except Err PFloat
  | .nan => .ok .nan
  | .posInf => .ok .posInf
  | .negInf => .error .domainError
  | .finite q =>
    if q < 0 then .error .domainError
    else .ok (.finite (fsqrt q))

end FloatOps

/-! ## Generic facts about the running-extremum scan -/

theorem scanBy_mem (repl : α → α → Bool) (cur : α) (l : List α) :
    scanBy repl cur l ∈ cur :: l := by
  induction l generalizing cur with
  | nil => simp [scanBy]
  | cons a rest ih =>
    simp only [scanBy]
    rcases List.mem_cons.mp (ih (if repl a cur then a else cur)) with h | h
    · rw [h]
      split
      · exact List.mem_cons_of_mem _ (List.mem_cons_self _ _)
      · exact List.mem_cons_self _ _
    · exact List.mem_cons_of_mem _ (List.mem_cons_of_mem _ h)

theorem scanBy_dom (repl : α → α → Bool) (P : α → Prop) (R : α → α → Prop)
    (hrefl : ∀ a, P a → R a a)
    (htrans : ∀ a b c, P a → P b → P c → R a b → R b c → R a c)
    (hT : ∀ a b, P a → P b → repl a b = true → R b a)
    (hF : ∀ a b, P a → P b → repl a b = false → R a b) :
    ∀ (l : List α) (cur : α), P cur → (∀ x ∈ l, P x) →
      ∀ y ∈ cur :: l, R y (scanBy repl cur l) := by
  intro l
  induction l with
  | nil =>
    intro cur hcur hl y hy
    simp only [List.mem_cons, List.not_mem_nil, or_false] at hy
    subst hy
    simpa [scanBy] using hrefl _ hcur
  | cons a rest ih =>
    intro cur hcur hl y hy
    have hPa : P a := hl a (List.mem_cons_self _ _)
    have hPrest : ∀ x ∈ rest, P x := fun x hx => hl x (List.mem_cons_of_mem _ hx)
    have hPcur2 : P (if repl a cur then a else cur) := by split <;> assumption
    have hPres : P (scanBy repl (if repl a cur then a else cur) rest) := by
      rcases List.mem_cons.mp (scanBy_mem repl (if repl a cur then a else cur) rest)
        with h | h
      · rw [h]; exact hPcur2
      · exact hPrest _ h
    have hdom := ih (if repl a cur then a else cur) hPcur2 hPrest
    have hcc : R cur (if repl a cur then a else cur) := by
      rcases hr : repl a cur with _ | _
      · simpa [hr] using hrefl cur hcur
      · simpa [hr] using hT a cur hPa hcur hr
    have hac : R a (if repl a cur then a else cur) := by
      rcases hr : repl a cur with _ | _
      · simpa [hr] using hF a cur hPa hcur hr
      · simpa [hr] using hrefl a hPa
    simp only [scanBy]
    rcases List.mem_cons.mp hy with h | h
    · subst h
      exact htrans y _ _ hcur hPcur2 hPres hcc
        (hdom _ (List.mem_cons_self _ _))
    · rcases List.mem_cons.mp h with h | h
      · subst h
        exact htrans y _ _ hPa hPcur2 hPres hac
          (hdom _ (List.mem_cons_self _ _))
      · exact hdom y (List.mem_cons_of_mem _ h)

theorem scanBy_greatest_eq (repl : α → α → Bool) (P : α → Prop) (R : α → α → Prop)
    (hrefl : ∀ a, P a → R a a)
    (htrans : ∀ a b c, P a → P b → P c → R a b → R b c → R a c)
    (hanti : ∀ a b, P a → P b → R a b → R b a → a = b)
    (hT : ∀ a b, P a → P b → repl a b = true → R b a)
    (hF : ∀ a b, P a → P b → repl a b = false → R a b)
    (x : α) (rest : List α) (x2 : α) (rest2 : List α)
    (hperm : List.Perm (x :: rest) (x2 :: rest2))
    (hP : ∀ y ∈ x :: rest, P y) :
    scanBy repl x rest = scanBy repl x2 rest2 := by
  have hP2 : ∀ y ∈ x2 :: rest2, P y := fun y hy => hP y (hperm.mem_iff.mpr hy)
  have hm1 : scanBy repl x rest ∈ x :: rest := scanBy_mem repl x rest
  have hm2 : scanBy repl x2 rest2 ∈ x2 :: rest2 := scanBy_mem repl x2 rest2
  have hd1 := scanBy_dom repl P R hrefl htrans hT hF rest x
    (hP x (List.mem_cons_self _ _))
    (fun y hy => hP y (List.mem_cons_of_mem _ hy))
  have hd2 := scanBy_dom repl P R hrefl htrans hT hF rest2 x2
    (hP2 x2 (List.mem_cons_self _ _))
    (fun y hy => hP2 y (List.mem_cons_of_mem _ hy))
  exact hanti _ _ (hP _ hm1) (hP2 _ hm2)
    (hd2 _ (hperm.mem_iff.mp hm1)) (hd1 _ (hperm.mem_iff.mpr hm2))

/-! ## Order facts about the modelled FixedPoint comparisons -/

theorem FixedPoint.is_nan_iff (a : FixedPoint) : a.is_nan = true ↔ a = nan := by
  cases a <;> simp [is_nan]

theorem FixedPoint.isfinite_iff (a : FixedPoint) :
    a.isfinite = true ↔ ∃ s, a = finite s := by
  cases a <;> simp [isfinite]

theorem FixedPoint.ge_refl (a : FixedPoint) (h : a ≠ nan) : a.ge a = true := by
  cases a <;> simp [ge] at h ⊢

theorem FixedPoint.ge_total (a b : FixedPoint) (ha : a ≠ nan) (hb : b ≠ nan) :
    a.ge b = true ∨ b.ge a = true := by
  cases a <;> cases b <;> simp [ge] at ha hb ⊢ <;> omega

theorem FixedPoint.ge_trans (a b c : FixedPoint) (h1 : a.ge b = true)
    (h2 : b.ge c = true) : a.ge c = true := by
  cases a <;> cases b <;> cases c <;> simp [ge] at h1 h2 ⊢ <;> omega

theorem FixedPoint.ge_antisymm (a b : FixedPoint) (h1 : a.ge b = true)
    (h2 : b.ge a = true) : a = b := by
  cases a <;> cases b <;> simp [ge] at h1 h2 ⊢ <;> omega

theorem FixedPoint.ge_negInf (a : FixedPoint) (h : a ≠ nan) :
    a.ge negInf = true := by
  cases a <;> simp [ge] at h ⊢

theorem FixedPoint.le_posInf (a : FixedPoint) (h : a ≠ nan) :
    a.le posInf = true := by
  cases a <;> simp [le, ge] at h ⊢

theorem FixedPoint.gt_eq_false_of_nan (a b : FixedPoint)
    (h : a = nan ∨ b = nan) : a.gt b = false := by
  rcases h with h | h
  · subst h; cases b <;> simp [gt, ge, beq]
  · subst h; cases a <;> simp [gt, ge, beq]

/-! ## Order facts about the modelled double comparisons -/

theorem PFloat.isfinite_iff_fl (a : PFloat) :
    a.isfinite = true ↔ ∃ q, a = finite q := by
  cases a <;> simp [isfinite]

theorem PFloat.ge_refl_fl (a : PFloat) (h : a.isfinite = true) : a.ge a = true := by
  cases a <;> simp [ge, isfinite] at h ⊢

theorem PFloat.ge_trans_fl (a b c : PFloat) (h1 : a.ge b = true)
    (h2 : b.ge c = true) : a.ge c = true := by
  cases a <;> cases b <;> cases c <;> simp [ge] at h1 h2 ⊢
  exact le_trans h2 h1

theorem PFloat.ge_antisymm_fl (a b : PFloat) (h1 : a.ge b = true)
    (h2 : b.ge a = true) : a = b := by
  cases a <;> cases b <;> simp [ge] at h1 h2 ⊢
  exact le_antisymm h2 h1

theorem PFloat.gt_finite (p q : ℚ) :
    (PFloat.finite p).gt (PFloat.finite q) = decide (q < p) := by
  by_cases h : q < p
  · simp [gt, ge, beq, h, le_of_lt h, ne_of_gt h]
  · rcases lt_or_eq_of_le (not_lt.mp h) with h2 | h2
    · simp [gt, ge, beq, h, not_le.mpr h2]
    · simp [gt, ge, beq, h, h2]

theorem PFloat.lt_finite (p q : ℚ) :
    (PFloat.finite p).lt (PFloat.finite q) = decide (p < q) := by
  simp [lt, gt_finite]

/-! ## Facts about the FixedPoint scan loops -/

theorem scanBy_cons_true (repl : α → α → Bool) (cur a : α) (rest : List α)
    (h : repl a cur = true) :
    scanBy repl cur (a :: rest) = scanBy repl a rest := by
  simp [scanBy, h]

theorem FPOps.maxLoop_nan :
    ∀ (l : List FixedPoint) (cur : FixedPoint), FixedPoint.nan ∈ l →
      FPOps.maxLoop cur l = FixedPoint.nan := by
  intro l
  induction l with
  | nil => intro cur h; simp at h
  | cons a rest ih =>
    intro cur h
    by_cases ha : a.is_nan = true
    · have haa : a = FixedPoint.nan := (FixedPoint.is_nan_iff a).mp ha
      subst haa
      simp [FPOps.maxLoop, FixedPoint.is_nan]
    · have hmem : FixedPoint.nan ∈ rest := by
        rcases List.mem_cons.mp h with h | h
        · exact absurd ((FixedPoint.is_nan_iff a).mpr h.symm) ha
        · exact h
      simp [FPOps.maxLoop, ha, ih _ hmem]

theorem FPOps.minLoop_nan :
    ∀ (l : List FixedPoint) (cur : FixedPoint), FixedPoint.nan ∈ l →
      FPOps.minLoop cur l = FixedPoint.nan := by
  intro l
  induction l with
  | nil => intro cur h; simp at h
  | cons a rest ih =>
    intro cur h
    by_cases ha : a.is_nan = true
    · have haa : a = FixedPoint.nan := (FixedPoint.is_nan_iff a).mp ha
      subst haa
      simp [FPOps.minLoop, FixedPoint.is_nan]
    · have hmem : FixedPoint.nan ∈ rest := by
        rcases List.mem_cons.mp h with h | h
        · exact absurd ((FixedPoint.is_nan_iff a).mpr h.symm) ha
        · exact h
      simp [FPOps.minLoop, ha, ih _ hmem]

theorem FPOps.maxLoop_eq_scanBy :
    ∀ (l : List FixedPoint) (cur : FixedPoint), (∀ x ∈ l, x ≠ FixedPoint.nan) →
      FPOps.maxLoop cur l = scanBy (fun a c => a.ge c) cur l := by
  intro l
  induction l with
  | nil => intro cur _; simp [FPOps.maxLoop, scanBy]
  | cons a rest ih =>
    intro cur h
    have ha : a.is_nan = false := by
      have := h a (List.mem_cons_self _ _)
      cases a <;> simp_all [FixedPoint.is_nan]
    simp [FPOps.maxLoop, scanBy, ha,
      ih _ (fun x hx => h x (List.mem_cons_of_mem _ hx))]

theorem FPOps.minLoop_eq_scanBy :
    ∀ (l : List FixedPoint) (cur : FixedPoint), (∀ x ∈ l, x ≠ FixedPoint.nan) →
      FPOps.minLoop cur l = scanBy (fun a c => a.le c) cur l := by
  intro l
  induction l with
  | nil => intro cur _; simp [FPOps.minLoop, scanBy]
  | cons a rest ih =>
    intro cur h
    have ha : a.is_nan = false := by
      have := h a (List.mem_cons_self _ _)
      cases a <;> simp_all [FixedPoint.is_nan]
    simp [FPOps.minLoop, scanBy, ha,
      ih _ (fun x hx => h x (List.mem_cons_of_mem _ hx))]

/-! ## Claims -/

/-- C7: for every non-finite FixedPoint x (NaN, +inf or -inf), exp(x)
returns x unchanged — NaN maps to NaN, +inf to +inf, -inf to -inf —
and the result does not depend on the integer-math backend (no backend
call is made on this path). -/
theorem c7_exp_nonfinite (backend backend2 : Int → Int) (x : FixedPoint)
    (h : x.isfinite = false) :
    FPOps.exp backend x = x ∧
    FPOps.exp backend FixedPoint.nan = FixedPoint.nan ∧
    FPOps.exp backend FixedPoint.posInf = FixedPoint.posInf ∧
    FPOps.exp backend FixedPoint.negInf = FixedPoint.negInf ∧
    FPOps.exp backend x = FPOps.exp backend2 x := by
  cases x <;> simp [FPOps.exp, FixedPoint.isfinite] at h ⊢

theorem c7_exp_nonfinite_witness :
    FPOps.exp id FixedPoint.posInf = FixedPoint.posInf :=
  (c7_exp_nonfinite id id FixedPoint.posInf (by decide)).1

/-- C5: for FixedPoint maximum and minimum with at least one argument,
if any argument is NaN the call returns that (first) NaN value,
regardless of the values of all other arguments: the scan
short-circuits at the first NaN. -/
theorem c5_minmax_nan (args : List FixedPoint) (h : FixedPoint.nan ∈ args) :
    FPOps.maximum args = .ok FixedPoint.nan ∧
    FPOps.minimum args = .ok FixedPoint.nan := by
  cases args with
  | nil => simp at h
  | cons a rest =>
    constructor
    · simp [FPOps.maximum, FPOps.maxLoop_nan _ _ h]
    · simp [FPOps.minimum, FPOps.minLoop_nan _ _ h]

theorem c5_minmax_nan_witness :
    FPOps.maximum [FixedPoint.finite 3, FixedPoint.nan] = .ok FixedPoint.nan ∧
    FPOps.minimum [FixedPoint.finite 3, FixedPoint.nan] = .ok FixedPoint.nan :=
  c5_minmax_nan [FixedPoint.finite 3, FixedPoint.nan] (by decide)

/-- C9: for the FixedPoint variant, a NaN low or high bound does not
make clip fail with InvalidRange (NaN is unordered, so the low > high
check is false); the call returns NaN for every x. -/
theorem c9_clip_nan_bound (x low high : FixedPoint)
    (h : low = FixedPoint.nan ∨ high = FixedPoint.nan) :
    FPOps.clip x low high = .ok FixedPoint.nan := by
  have hgt : low.gt high = false := FixedPoint.gt_eq_false_of_nan low high h
  rcases h with h | h
  · subst h
    have hmax : FPOps.maximum [x, FixedPoint.nan] = .ok FixedPoint.nan := by
      simp [FPOps.maximum, FPOps.maxLoop_nan _ _
        (List.mem_cons_of_mem _ (List.mem_cons_self _ _))]
    simp only [FPOps.clip, hgt, Bool.false_eq_true, if_false, hmax]
    simp [FPOps.minimum, FPOps.minLoop_nan _ _ (List.mem_cons_self _ _)]
  · subst h
    rcases hm : FPOps.maximum [x, low] with e | m
    · rcases x <;> rcases low <;> simp [FPOps.maximum] at hm
    · simp only [FPOps.clip, hgt, Bool.false_eq_true, if_false, hm]
      simp [FPOps.minimum, FPOps.minLoop_nan _ _
        (List.mem_cons_of_mem _ (List.mem_cons_self _ _))]

theorem c9_clip_nan_bound_witness :
    FPOps.clip (FixedPoint.finite 7) FixedPoint.nan (FixedPoint.finite 9) =
      .ok FixedPoint.nan :=
  c9_clip_nan_bound _ _ _ (Or.inl rfl)

/-- C4: isclose with a or b non-finite returns exactly a == b under the
variant's native equality, with no tolerance applied: NaN vs NaN is
False, +inf vs +inf is True, +inf vs -inf is False, inf vs NaN is
False — for the FixedPoint and float variants. -/
theorem c4_isclose_nonfinite :
    (∀ a b tol : FixedPoint, a.isfinite = false ∨ b.isfinite = false →
      FPOps.isclose a b tol = .ok (a.beq b)) ∧
    (∀ a b tol : PFloat, a.isfinite = false ∨ b.isfinite = false →
      FloatOps.isclose a b tol = .ok (a.beq b)) ∧
    (∀ tol : FixedPoint,
      FPOps.isclose FixedPoint.nan FixedPoint.nan tol = .ok false ∧
      FPOps.isclose FixedPoint.posInf FixedPoint.posInf tol = .ok true ∧
      FPOps.isclose FixedPoint.posInf FixedPoint.negInf tol = .ok false ∧
      FPOps.isclose FixedPoint.posInf FixedPoint.nan tol = .ok false) ∧
    (∀ tol : PFloat,
      FloatOps.isclose PFloat.nan PFloat.nan tol = .ok false ∧
      FloatOps.isclose PFloat.posInf PFloat.posInf tol = .ok true ∧
      FloatOps.isclose PFloat.posInf PFloat.negInf tol = .ok false ∧
      FloatOps.isclose PFloat.posInf PFloat.nan tol = .ok false) := by
  refine ⟨?_, ?_, ?_, ?_⟩
  · intro a b tol h
    rcases h with h | h <;> simp [FPOps.isclose, h]
  · intro a b tol h
    rcases h with h | h <;> simp [FloatOps.isclose, h]
  · intro tol
    refine ⟨?_, ?_, ?_, ?_⟩ <;>
      simp [FPOps.isclose, FixedPoint.isfinite, FixedPoint.beq]
  · intro tol
    refine ⟨?_, ?_, ?_, ?_⟩ <;>
      simp [FloatOps.isclose, PFloat.isfinite, PFloat.beq]

theorem c4_isclose_nonfinite_witness :
    FPOps.isclose FixedPoint.posInf (FixedPoint.finite 1) FixedPoint.nan =
      .ok (FixedPoint.posInf.beq (FixedPoint.finite 1)) :=
  c4_isclose_nonfinite.1 _ _ _ (Or.inl (by decide))

/-- C2 counterexample: the non-finite short-circuit on a and b runs
before the tolerance check, so isclose(+inf, +inf, abs_tol=NaN)
returns True and does not fail with InvalidTolerance — refuting the
claim that a non-finite abs_tol fails for all values of a and b. -/
theorem c2_tolerance_counterexample :
    FPOps.isclose FixedPoint.posInf FixedPoint.posInf FixedPoint.nan =
      .ok true ∧
    FPOps.isclose FixedPoint.posInf FixedPoint.posInf FixedPoint.nan ≠
      .error Err.invalidTolerance := by
  constructor
  · rfl
  · simp [FPOps.isclose, FixedPoint.isfinite, FixedPoint.beq]

/-- C2 (amended): when both a and b are finite, a non-finite abs_tol
fails with InvalidTolerance (FixedPoint and float variants); when a or
b is non-finite the tolerance is never validated and the call returns
a == b instead. -/
theorem c2_tolerance_amended :
    (∀ a b tol : FixedPoint, a.isfinite = true → b.isfinite = true →
      tol.isfinite = false →
      FPOps.isclose a b tol = .error Err.invalidTolerance) ∧
    (∀ a b tol : PFloat, a.isfinite = true → b.isfinite = true →
      tol.isfinite = false →
      FloatOps.isclose a b tol = .error Err.invalidTolerance) ∧
    (∀ a b tol : FixedPoint, a.isfinite = false ∨ b.isfinite = false →
      FPOps.isclose a b tol = .ok (a.beq b)) ∧
    (∀ a b tol : PFloat, a.isfinite = false ∨ b.isfinite = false →
      FloatOps.isclose a b tol = .ok (a.beq b)) := by
  refine ⟨?_, ?_, ?_, ?_⟩
  · intro a b tol ha hb ht
    simp [FPOps.isclose, ha, hb, ht]
  · intro a b tol ha hb ht
    simp [FloatOps.isclose, ha, hb, ht]
  · intro a b tol h
    rcases h with h | h <;> simp [FPOps.isclose, h]
  · intro a b tol h
    rcases h with h | h <;> simp [FloatOps.isclose, h]

theorem c2_tolerance_amended_witness :
    FPOps.isclose (FixedPoint.finite 5) (FixedPoint.finite 1)
      FixedPoint.posInf = .error Err.invalidTolerance :=
  c2_tolerance_amended.1 _ _ _ (by decide) (by decide) (by decide)

/-- C3 counterexample: for the int variant the single-argument call
maximum(5) unpacks to the builtin max(5), which is a TypeError on a
non-iterable scalar — the call does not succeed and return 5, and
likewise for minimum and for the float variant. -/
theorem c3_single_arg_counterexample :
    IntOps.maximum [(5 : Int)] = .error Err.typeError ∧
    IntOps.minimum [(5 : Int)] = .error Err.typeError ∧
    IntOps.maximum [(5 : Int)] ≠ .ok 5 ∧
    FloatOps.maximum [PFloat.finite 5] = .error Err.typeError := by
  refine ⟨rfl, rfl, ?_, rfl⟩
  simp [IntOps.maximum]

/-- C3 (amended): single-argument maximum(x) and minimum(x) succeed and
return x for the FixedPoint variant; for the int and float variants the
single-argument call fails with a TypeError raised by the native
max/min builtin on a non-iterable scalar. -/
theorem c3_single_arg :
    (∀ x : FixedPoint,
      FPOps.maximum [x] = .ok x ∧ FPOps.minimum [x] = .ok x) ∧
    (∀ n : Int, IntOps.maximum [n] = .error Err.typeError ∧
      IntOps.minimum [n] = .error Err.typeError) ∧
    (∀ q : PFloat, FloatOps.maximum [q] = .error Err.typeError ∧
      FloatOps.minimum [q] = .error Err.typeError) := by
  refine ⟨?_, fun n => ⟨rfl, rfl⟩, fun q => ⟨rfl, rfl⟩⟩
  intro x
  by_cases hx : x.is_nan = true
  · have hxx : x = FixedPoint.nan := (FixedPoint.is_nan_iff x).mp hx
    subst hxx
    exact ⟨by simp [FPOps.maximum, FPOps.maxLoop, FixedPoint.is_nan],
      by simp [FPOps.minimum, FPOps.minLoop, FixedPoint.is_nan]⟩
  · have hne : x ≠ FixedPoint.nan :=
      fun hh => hx ((FixedPoint.is_nan_iff x).mpr hh)
    have hx2 : x.is_nan = false := by
      cases hxv : x.is_nan
      · rfl
      · exact absurd hxv hx
    constructor
    · simp [FPOps.maximum, FPOps.maxLoop, hx2, FixedPoint.ge_negInf x hne]
    · simp [FPOps.minimum, FPOps.minLoop, hx2, FixedPoint.le_posInf x hne]

/-- C6: sqrt fails with DomainError on every negative finite input of
every variant and on FixedPoint negative infinity (never a silent
NaN); FixedPoint NaN maps to NaN and +inf to +inf — for every native
square-root backend. -/
theorem c6_sqrt_domain (fsqrt : ℚ → ℚ) (s : Int) (q : ℚ) (n : Int)
    (hs : s < 0) (hq : q < 0) (hn : n < 0) :
    FPOps.sqrt fsqrt (FixedPoint.finite s) = .error Err.domainError ∧
    FPOps.sqrt fsqrt FixedPoint.negInf = .error Err.domainError ∧
    FPOps.sqrt fsqrt FixedPoint.nan = .ok FixedPoint.nan ∧
    FPOps.sqrt fsqrt FixedPoint.posInf = .ok FixedPoint.posInf ∧
    FloatOps.sqrt fsqrt (PFloat.finite q) = .error Err.domainError ∧
    IntOps.sqrt fsqrt n = .error Err.domainError := by
  have h1 : FPOps.toFloat s < 0 := by
    have hc : (s : ℚ) < 0 := by exact_mod_cast hs
    exact div_neg_of_neg_of_pos hc (by norm_num)
  have h3 : (n : ℚ) < 0 := by exact_mod_cast hn
  exact ⟨by simp [FPOps.sqrt, h1], rfl, rfl, rfl,
    by simp [FloatOps.sqrt, hq], by simp [IntOps.sqrt, h3]⟩

theorem c6_sqrt_domain_witness :
    FPOps.sqrt id (FixedPoint.finite (-1)) = .error Err.domainError ∧
    FPOps.sqrt id FixedPoint.negInf = .error Err.domainError ∧
    FPOps.sqrt id FixedPoint.nan = .ok FixedPoint.nan ∧
    FPOps.sqrt id FixedPoint.posInf = .ok FixedPoint.posInf ∧
    FloatOps.sqrt id (PFloat.finite (-1)) = .error Err.domainError ∧
    IntOps.sqrt id (-1) = .error Err.domainError :=
  c6_sqrt_domain id (-1) (-1) (-1) (by decide) (by decide) (by decide)

/-- C10: for nonnegative int input the result of sqrt is the native
floating-point square root truncated toward zero; in particular, for
every native sqrt backend whose value at 3 lies in [1, 2) — as the
correctly rounded double √3 ≈ 1.732 does — sqrt(3) returns 1, and not
the rounded integer square root 2. -/
theorem c10_sqrt_trunc (fsqrt : ℚ → ℚ)
    (h1 : 1 ≤ fsqrt 3) (h2 : fsqrt 3 < 2) :
    (∀ n : Int, 0 ≤ n → IntOps.sqrt fsqrt n = .ok (pyTrunc (fsqrt n))) ∧
    IntOps.sqrt fsqrt 3 = .ok 1 ∧
    IntOps.sqrt fsqrt 3 ≠ .ok 2 := by
  have hgen : ∀ n : Int, 0 ≤ n →
      IntOps.sqrt fsqrt n = .ok (pyTrunc (fsqrt n)) := by
    intro n hnn
    have hc : ¬((n : ℚ) < 0) := by
      push_neg
      exact_mod_cast hnn
    simp [IntOps.sqrt, hc]
  have h3 : IntOps.sqrt fsqrt 3 = .ok (pyTrunc (fsqrt 3)) := by
    have := hgen 3 (by norm_num)
    simpa using this
  have htr : pyTrunc (fsqrt 3) = 1 := by
    have h0 : (0 : ℚ) ≤ fsqrt 3 := le_trans (by norm_num) h1
    have hle : (1 : ℤ) ≤ (fsqrt 3).floor :=
      Rat.le_floor.mpr (by exact_mod_cast h1)
    have hlt : (fsqrt 3).floor < 2 := by
      by_contra hc
      push_neg at hc
      have h2q : ((2 : ℤ) : ℚ) ≤ fsqrt 3 := Rat.le_floor.mp hc
      have h2q2 : (2 : ℚ) ≤ fsqrt 3 := by exact_mod_cast h2q
      exact absurd h2q2 (not_le.mpr h2)
    have hfl : (fsqrt 3).floor = 1 := by omega
    simp [pyTrunc, h0, hfl]
  refine ⟨hgen, by rw [h3, htr], ?_⟩
  rw [h3, htr]
  simp

theorem c10_sqrt_trunc_witness :
    IntOps.sqrt (fun _ => (1 : ℚ)) 3 = .ok 1 ∧
    IntOps.sqrt (fun _ => (1 : ℚ)) 3 ≠ .ok 2 :=
  ⟨(c10_sqrt_trunc (fun _ => 1) (by decide) (by decide)).2.1,
   (c10_sqrt_trunc (fun _ => 1) (by decide) (by decide)).2.2⟩

/-! ## Evaluation of the two-argument maximum/minimum calls made by clip -/

theorem FPOps.maximum_pair_finite (sx sl : Int) :
    FPOps.maximum [FixedPoint.finite sx, FixedPoint.finite sl] =
      .ok (FixedPoint.finite (max sx sl)) := by
  rcases le_or_lt sx sl with hc | hc
  · simp [FPOps.maximum, FPOps.maxLoop, FixedPoint.is_nan, FixedPoint.ge,
      hc, max_eq_right hc]
  · simp [FPOps.maximum, FPOps.maxLoop, FixedPoint.is_nan, FixedPoint.ge,
      not_le.mpr hc, max_eq_left hc.le]

theorem FPOps.minimum_pair_finite (sm sh : Int) :
    FPOps.minimum [FixedPoint.finite sm, FixedPoint.finite sh] =
      .ok (FixedPoint.finite (min sm sh)) := by
  rcases le_or_lt sh sm with hc | hc
  · simp [FPOps.minimum, FPOps.minLoop, FixedPoint.is_nan, FixedPoint.le,
      FixedPoint.ge, hc, min_eq_right hc]
  · simp [FPOps.minimum, FPOps.minLoop, FixedPoint.is_nan, FixedPoint.le,
      FixedPoint.ge, not_le.mpr hc, min_eq_left hc.le]

theorem FPOps.clip_finite (sx sl sh : Int) (h : sl ≤ sh) :
    FPOps.clip (FixedPoint.finite sx) (FixedPoint.finite sl)
      (FixedPoint.finite sh) =
      .ok (FixedPoint.finite (min (max sx sl) sh)) := by
  have hgt : (FixedPoint.finite sl).gt (FixedPoint.finite sh) = false := by
    simp [FixedPoint.gt, FixedPoint.ge, FixedPoint.beq]
    omega
  simp only [FPOps.clip, hgt, Bool.false_eq_true, if_false,
    FPOps.maximum_pair_finite, FPOps.minimum_pair_finite]

theorem IntOps.maximum_pair (x lo : Int) :
    IntOps.maximum [x, lo] = .ok (max x lo) := by
  rcases lt_or_le x lo with hc | hc
  · simp [IntOps.maximum, scanBy, hc, max_eq_right hc.le]
  · simp [IntOps.maximum, scanBy, not_lt.mpr hc, max_eq_left hc]

theorem IntOps.minimum_pair (m hi : Int) :
    IntOps.minimum [m, hi] = .ok (min m hi) := by
  rcases lt_or_le hi m with hc | hc
  · simp [IntOps.minimum, scanBy, hc, min_eq_right hc.le]
  · simp [IntOps.minimum, scanBy, not_lt.mpr hc, min_eq_left hc]

theorem IntOps.clip_eq (x lo hi : Int) (h : lo ≤ hi) :
    IntOps.clip x lo hi = .ok (min (max x lo) hi) := by
  have hgt : ¬(hi < lo) := not_lt.mpr h
  simp only [IntOps.clip, if_neg hgt, IntOps.maximum_pair, IntOps.minimum_pair]

theorem FloatOps.maximum_pair_fl (x lo : ℚ) :
    FloatOps.maximum [PFloat.finite x, PFloat.finite lo] =
      .ok (PFloat.finite (max x lo)) := by
  rcases lt_or_le x lo with hc | hc
  · simp [FloatOps.maximum, scanBy, PFloat.gt_finite, hc, max_eq_right hc.le]
  · simp [FloatOps.maximum, scanBy, PFloat.gt_finite, not_lt.mpr hc,
      max_eq_left hc]

theorem FloatOps.minimum_pair_fl (m hi : ℚ) :
    FloatOps.minimum [PFloat.finite m, PFloat.finite hi] =
      .ok (PFloat.finite (min m hi)) := by
  rcases lt_or_le hi m with hc | hc
  · simp [FloatOps.minimum, scanBy, PFloat.lt_finite, hc, min_eq_right hc.le]
  · simp [FloatOps.minimum, scanBy, PFloat.lt_finite, not_lt.mpr hc,
      min_eq_left hc]

theorem FloatOps.clip_eq_fl (x lo hi : ℚ) (h : lo ≤ hi) :
    FloatOps.clip (PFloat.finite x) (PFloat.finite lo) (PFloat.finite hi) =
      .ok (PFloat.finite (min (max x lo) hi)) := by
  have hgt : (PFloat.finite lo).gt (PFloat.finite hi) = false := by
    rw [PFloat.gt_finite]
    exact decide_eq_false (not_lt.mpr h)
  simp only [FloatOps.clip, hgt, Bool.false_eq_true, if_false,
    FloatOps.maximum_pair_fl, FloatOps.minimum_pair_fl]

/-- C1: for every variant, for finite x, low, high of the same variant
with low <= high, clip(x, low, high) returns a value v with
low <= v <= high; and if additionally low <= x <= high, then
clip(x, low, high) returns x itself. -/
theorem c1_clip_bounds :
    (∀ sx sl sh : Int, sl ≤ sh →
      (∃ sv, FPOps.clip (FixedPoint.finite sx) (FixedPoint.finite sl)
          (FixedPoint.finite sh) = .ok (FixedPoint.finite sv) ∧
        sl ≤ sv ∧ sv ≤ sh) ∧
      (sl ≤ sx → sx ≤ sh →
        FPOps.clip (FixedPoint.finite sx) (FixedPoint.finite sl)
          (FixedPoint.finite sh) = .ok (FixedPoint.finite sx))) ∧
    (∀ x lo hi : Int, lo ≤ hi →
      (∃ v, IntOps.clip x lo hi = .ok v ∧ lo ≤ v ∧ v ≤ hi) ∧
      (lo ≤ x → x ≤ hi → IntOps.clip x lo hi = .ok x)) ∧
    (∀ x lo hi : ℚ, lo ≤ hi →
      (∃ v, FloatOps.clip (PFloat.finite x) (PFloat.finite lo)
          (PFloat.finite hi) = .ok (PFloat.finite v) ∧ lo ≤ v ∧ v ≤ hi) ∧
      (lo ≤ x → x ≤ hi →
        FloatOps.clip (PFloat.finite x) (PFloat.finite lo)
          (PFloat.finite hi) = .ok (PFloat.finite x))) := by
  refine ⟨?_, ?_, ?_⟩
  · intro sx sl sh h
    constructor
    · exact ⟨min (max sx sl) sh, FPOps.clip_finite sx sl sh h,
        by omega, by omega⟩
    · intro h1 h2
      rw [FPOps.clip_finite sx sl sh h]
      have hv : min (max sx sl) sh = sx := by omega
      rw [hv]
  · intro x lo hi h
    constructor
    · exact ⟨min (max x lo) hi, IntOps.clip_eq x lo hi h, by omega, by omega⟩
    · intro h1 h2
      rw [IntOps.clip_eq x lo hi h]
      have hv : min (max x lo) hi = x := by omega
      rw [hv]
  · intro x lo hi h
    constructor
    · refine ⟨min (max x lo) hi, FloatOps.clip_eq_fl x lo hi h, ?_, min_le_right _ _⟩
      exact le_min (le_max_right x lo) h
    · intro h1 h2
      rw [FloatOps.clip_eq_fl x lo hi h]
      rw [max_eq_left h1, min_eq_left h2]

theorem c1_clip_bounds_witness :
    (FPOps.clip (FixedPoint.finite 5) (FixedPoint.finite 1)
      (FixedPoint.finite 9) = .ok (FixedPoint.finite 5)) ∧
    IntOps.clip 5 1 9 = .ok 5 ∧
    FloatOps.clip (PFloat.finite 5) (PFloat.finite 1) (PFloat.finite 9) =
      .ok (PFloat.finite 5) :=
  ⟨(c1_clip_bounds.1 5 1 9 (by decide)).2 (by decide) (by decide),
   (c1_clip_bounds.2.1 5 1 9 (by decide)).2 (by decide) (by decide),
   (c1_clip_bounds.2.2 5 1 9 (by decide)).2 (by decide) (by decide)⟩

/-! ## Permutation invariance of maximum/minimum on finite arguments -/

theorem FixedPoint.ne_nan_of_finite (v : FixedPoint) (hv : v.isfinite = true) :
    v ≠ FixedPoint.nan := by
  rcases (FixedPoint.isfinite_iff v).mp hv with ⟨s, rfl⟩
  simp

theorem PFloat.ge_of_gt (a b : PFloat) (h : a.gt b = true) : a.ge b = true := by
  have h2 := h
  simp [PFloat.gt, Bool.and_eq_true] at h2
  exact h2.1

theorem PFloat.ge_of_gt_false (a b : PFloat) (ha : a.isfinite = true)
    (hb : b.isfinite = true) (h : a.gt b = false) : b.ge a = true := by
  rcases (isfinite_iff_fl a).mp ha with ⟨p, rfl⟩
  rcases (isfinite_iff_fl b).mp hb with ⟨q, rfl⟩
  rw [gt_finite] at h
  have hnl : ¬(q < p) := of_decide_eq_false h
  simp [ge]
  exact not_lt.mp hnl

theorem FPOps.maximum_perm (l l2 : List FixedPoint)
    (hperm : List.Perm l l2) (hfin : ∀ x ∈ l, x.isfinite = true) :
    FPOps.maximum l = FPOps.maximum l2 := by
  cases l with
  | nil =>
    have h2 : l2 = [] := hperm.symm.eq_nil
    subst h2; rfl
  | cons x rest =>
    cases l2 with
    | nil => exact absurd hperm.eq_nil (by simp)
    | cons x2 rest2 =>
      have hfin2 : ∀ y ∈ x2 :: rest2, y.isfinite = true :=
        fun y hy => hfin y (hperm.mem_iff.mpr hy)
      have hnn : ∀ y ∈ x :: rest, y ≠ FixedPoint.nan :=
        fun y hy => FixedPoint.ne_nan_of_finite y (hfin y hy)
      have hnn2 : ∀ y ∈ x2 :: rest2, y ≠ FixedPoint.nan :=
        fun y hy => FixedPoint.ne_nan_of_finite y (hfin2 y hy)
      have e1 : FPOps.maximum (x :: rest) =
          .ok (scanBy (fun a c => a.ge c) x rest) := by
        show Except.ok (FPOps.maxLoop .negInf (x :: rest)) = _
        rw [FPOps.maxLoop_eq_scanBy _ _ hnn, scanBy_cons_true _ _ _ _
          (FixedPoint.ge_negInf x (hnn x (List.mem_cons_self _ _)))]
      have e2 : FPOps.maximum (x2 :: rest2) =
          .ok (scanBy (fun a c => a.ge c) x2 rest2) := by
        show Except.ok (FPOps.maxLoop .negInf (x2 :: rest2)) = _
        rw [FPOps.maxLoop_eq_scanBy _ _ hnn2, scanBy_cons_true _ _ _ _
          (FixedPoint.ge_negInf x2 (hnn2 x2 (List.mem_cons_self _ _)))]
      rw [e1, e2]
      congr 1
      exact scanBy_greatest_eq (fun a c => a.ge c)
        (fun v => v.isfinite = true) (fun yv rv => rv.ge yv = true)
        (fun a ha => FixedPoint.ge_refl a (FixedPoint.ne_nan_of_finite a ha))
        (fun a b c _ _ _ h1 h2 => FixedPoint.ge_trans c b a h2 h1)
        (fun a b _ _ h1 h2 => (FixedPoint.ge_antisymm b a h1 h2).symm)
        (fun a b _ _ hr => hr)
        (fun a b ha hb hr => by
          have hr2 : a.ge b = false := hr
          rcases FixedPoint.ge_total a b (FixedPoint.ne_nan_of_finite a ha)
            (FixedPoint.ne_nan_of_finite b hb) with hg | hg
          · rw [hr2] at hg
            exact absurd hg (by simp)
          · exact hg)
        x rest x2 rest2 hperm hfin

theorem FPOps.minimum_perm (l l2 : List FixedPoint)
    (hperm : List.Perm l l2) (hfin : ∀ x ∈ l, x.isfinite = true) :
    FPOps.minimum l = FPOps.minimum l2 := by
  cases l with
  | nil =>
    have h2 : l2 = [] := hperm.symm.eq_nil
    subst h2; rfl
  | cons x rest =>
    cases l2 with
    | nil => exact absurd hperm.eq_nil (by simp)
    | cons x2 rest2 =>
      have hfin2 : ∀ y ∈ x2 :: rest2, y.isfinite = true :=
        fun y hy => hfin y (hperm.mem_iff.mpr hy)
      have hnn : ∀ y ∈ x :: rest, y ≠ FixedPoint.nan :=
        fun y hy => FixedPoint.ne_nan_of_finite y (hfin y hy)
      have hnn2 : ∀ y ∈ x2 :: rest2, y ≠ FixedPoint.nan :=
        fun y hy => FixedPoint.ne_nan_of_finite y (hfin2 y hy)
      have e1 : FPOps.minimum (x :: rest) =
          .ok (scanBy (fun a c => a.le c) x rest) := by
        show Except.ok (FPOps.minLoop .posInf (x :: rest)) = _
        rw [FPOps.minLoop_eq_scanBy _ _ hnn, scanBy_cons_true _ _ _ _
          (FixedPoint.le_posInf x (hnn x (List.mem_cons_self _ _)))]
      have e2 : FPOps.minimum (x2 :: rest2) =
          .ok (scanBy (fun a c => a.le c) x2 rest2) := by
        show Except.ok (FPOps.minLoop .posInf (x2 :: rest2)) = _
        rw [FPOps.minLoop_eq_scanBy _ _ hnn2, scanBy_cons_true _ _ _ _
          (FixedPoint.le_posInf x2 (hnn2 x2 (List.mem_cons_self _ _)))]
      rw [e1, e2]
      congr 1
      exact scanBy_greatest_eq (fun a c => a.le c)
        (fun v => v.isfinite = true) (fun yv rv => rv.le yv = true)
        (fun a ha => FixedPoint.ge_refl a (FixedPoint.ne_nan_of_finite a ha))
        (fun a b c _ _ _ h1 h2 => FixedPoint.ge_trans a b c h1 h2)
        (fun a b _ _ h1 h2 => FixedPoint.ge_antisymm a b h1 h2)
        (fun a b _ _ hr => hr)
        (fun a b ha hb hr => by
          have hr2 : b.ge a = false := hr
          rcases FixedPoint.ge_total b a (FixedPoint.ne_nan_of_finite b hb)
            (FixedPoint.ne_nan_of_finite a ha) with hg | hg
          · rw [hr2] at hg
            exact absurd hg (by simp)
          · exact hg)
        x rest x2 rest2 hperm hfin

theorem IntOps.maximum_perm_int (l l2 : List Int) (hperm : List.Perm l l2) :
    IntOps.maximum l = IntOps.maximum l2 := by
  cases l with
  | nil =>
    have h2 : l2 = [] := hperm.symm.eq_nil
    subst h2; rfl
  | cons x rest =>
    cases rest with
    | nil =>
      have h2 : l2 = [x] := List.perm_singleton.mp hperm.symm
      subst h2; rfl
    | cons y rest1 =>
      cases l2 with
      | nil => exact absurd hperm.eq_nil (by simp)
      | cons x2 rest2 =>
        cases rest2 with
        | nil =>
          have hl := hperm.length_eq
          simp at hl
        | cons y2 rest3 =>
          show Except.ok (scanBy (fun a cur => decide (cur < a)) x (y :: rest1)) =
            Except.ok (scanBy (fun a cur => decide (cur < a)) x2 (y2 :: rest3))
          congr 1
          exact scanBy_greatest_eq (fun a cur => decide (cur < a))
            (fun _ => True) (fun a b => a ≤ b)
            (fun a _ => le_refl a)
            (fun a b c _ _ _ h1 h2 => le_trans h1 h2)
            (fun a b _ _ h1 h2 => le_antisymm h1 h2)
            (fun a b _ _ hr => le_of_lt (of_decide_eq_true hr))
            (fun a b _ _ hr => not_lt.mp (of_decide_eq_false hr))
            x (y :: rest1) x2 (y2 :: rest3) hperm (fun _ _ => trivial)

theorem IntOps.minimum_perm_int (l l2 : List Int) (hperm : List.Perm l l2) :
    IntOps.minimum l = IntOps.minimum l2 := by
  cases l with
  | nil =>
    have h2 : l2 = [] := hperm.symm.eq_nil
    subst h2; rfl
  | cons x rest =>
    cases rest with
    | nil =>
      have h2 : l2 = [x] := List.perm_singleton.mp hperm.symm
      subst h2; rfl
    | cons y rest1 =>
      cases l2 with
      | nil => exact absurd hperm.eq_nil (by simp)
      | cons x2 rest2 =>
        cases rest2 with
        | nil =>
          have hl := hperm.length_eq
          simp at hl
        | cons y2 rest3 =>
          show Except.ok (scanBy (fun a cur => decide (a < cur)) x (y :: rest1)) =
            Except.ok (scanBy (fun a cur => decide (a < cur)) x2 (y2 :: rest3))
          congr 1
          exact scanBy_greatest_eq (fun a cur => decide (a < cur))
            (fun _ => True) (fun a b => b ≤ a)
            (fun a _ => le_refl a)
            (fun a b c _ _ _ h1 h2 => le_trans h2 h1)
            (fun a b _ _ h1 h2 => le_antisymm h2 h1)
            (fun a b _ _ hr => le_of_lt (of_decide_eq_true hr))
            (fun a b _ _ hr => not_lt.mp (of_decide_eq_false hr))
            x (y :: rest1) x2 (y2 :: rest3) hperm (fun _ _ => trivial)

theorem FloatOps.maximum_perm_fl (l l2 : List PFloat) (hperm : List.Perm l l2)
    (hfin : ∀ x ∈ l, x.isfinite = true) :
    FloatOps.maximum l = FloatOps.maximum l2 := by
  cases l with
  | nil =>
    have h2 : l2 = [] := hperm.symm.eq_nil
    subst h2; rfl
  | cons x rest =>
    cases rest with
    | nil =>
      have h2 : l2 = [x] := List.perm_singleton.mp hperm.symm
      subst h2; rfl
    | cons y rest1 =>
      cases l2 with
      | nil => exact absurd hperm.eq_nil (by simp)
      | cons x2 rest2 =>
        cases rest2 with
        | nil =>
          have hl := hperm.length_eq
          simp at hl
        | cons y2 rest3 =>
          show Except.ok (scanBy (fun a cur => a.gt cur) x (y :: rest1)) =
            Except.ok (scanBy (fun a cur => a.gt cur) x2 (y2 :: rest3))
          congr 1
          exact scanBy_greatest_eq (fun a cur => a.gt cur)
            (fun v => v.isfinite = true) (fun yv rv => rv.ge yv = true)
            (fun a ha => PFloat.ge_refl_fl a ha)
            (fun a b c _ _ _ h1 h2 => PFloat.ge_trans_fl c b a h2 h1)
            (fun a b _ _ h1 h2 => (PFloat.ge_antisymm_fl b a h1 h2).symm)
            (fun a b _ _ hr => PFloat.ge_of_gt a b hr)
            (fun a b ha hb hr => PFloat.ge_of_gt_false a b ha hb hr)
            x (y :: rest1) x2 (y2 :: rest3) hperm hfin

theorem FloatOps.minimum_perm_fl (l l2 : List PFloat) (hperm : List.Perm l l2)
    (hfin : ∀ x ∈ l, x.isfinite = true) :
    FloatOps.minimum l = FloatOps.minimum l2 := by
  cases l with
  | nil =>
    have h2 : l2 = [] := hperm.symm.eq_nil
    subst h2; rfl
  | cons x rest =>
    cases rest with
    | nil =>
      have h2 : l2 = [x] := List.perm_singleton.mp hperm.symm
      subst h2; rfl
    | cons y rest1 =>
      cases l2 with
      | nil => exact absurd hperm.eq_nil (by simp)
      | cons x2 rest2 =>
        cases rest2 with
        | nil =>
          have hl := hperm.length_eq
          simp at hl
        | cons y2 rest3 =>
          show Except.ok (scanBy (fun a cur => a.lt cur) x (y :: rest1)) =
            Except.ok (scanBy (fun a cur => a.lt cur) x2 (y2 :: rest3))
          congr 1
          exact scanBy_greatest_eq (fun a cur => a.lt cur)
            (fun v => v.isfinite = true) (fun yv rv => rv.le yv = true)
            (fun a ha => PFloat.ge_refl_fl a ha)
            (fun a b c _ _ _ h1 h2 => PFloat.ge_trans_fl a b c h1 h2)
            (fun a b _ _ h1 h2 => PFloat.ge_antisymm_fl a b h1 h2)
            (fun a b _ _ hr => PFloat.ge_of_gt b a hr)
            (fun a b ha hb hr => PFloat.ge_of_gt_false b a hb ha hr)
            x (y :: rest1) x2 (y2 :: rest3) hperm hfin

/-- C8: for every variant, on argument lists of finite pairwise-distinct
values the value returned by maximum (and likewise by minimum) is
invariant under every permutation of the argument list. -/
theorem c8_minmax_perm
    (lf lf2 : List FixedPoint) (li li2 : List Int) (lq lq2 : List PFloat)
    (hpf : List.Perm lf lf2) (hpi : List.Perm li li2) (hpq : List.Perm lq lq2)
    (hff : ∀ x ∈ lf, x.isfinite = true) (hqf : ∀ x ∈ lq, x.isfinite = true)
    (_hdf : lf.Pairwise (· ≠ ·)) (_hdi : li.Pairwise (· ≠ ·))
    (_hdq : lq.Pairwise (· ≠ ·)) :
    FPOps.maximum lf = FPOps.maximum lf2 ∧
    FPOps.minimum lf = FPOps.minimum lf2 ∧
    IntOps.maximum li = IntOps.maximum li2 ∧
    IntOps.minimum li = IntOps.minimum li2 ∧
    FloatOps.maximum lq = FloatOps.maximum lq2 ∧
    FloatOps.minimum lq = FloatOps.minimum lq2 :=
  ⟨FPOps.maximum_perm lf lf2 hpf hff, FPOps.minimum_perm lf lf2 hpf hff,
   IntOps.maximum_perm_int li li2 hpi, IntOps.minimum_perm_int li li2 hpi,
   FloatOps.maximum_perm_fl lq lq2 hpq hqf, FloatOps.minimum_perm_fl lq lq2 hpq hqf⟩

theorem c8_minmax_perm_witness :
    FPOps.maximum [FixedPoint.finite 1, FixedPoint.finite 2] =
      FPOps.maximum [FixedPoint.finite 2, FixedPoint.finite 1] ∧
    FPOps.minimum [FixedPoint.finite 1, FixedPoint.finite 2] =
      FPOps.minimum [FixedPoint.finite 2, FixedPoint.finite 1] ∧
    IntOps.maximum [1, 2] = IntOps.maximum [2, 1] ∧
    IntOps.minimum [1, 2] = IntOps.minimum [2, 1] ∧
    FloatOps.maximum [PFloat.finite 1, PFloat.finite 2] =
      FloatOps.maximum [PFloat.finite 2, PFloat.finite 1] ∧
    FloatOps.minimum [PFloat.finite 1, PFloat.finite 2] =
      FloatOps.minimum [PFloat.finite 2, PFloat.finite 1] :=
  c8_minmax_perm
    [FixedPoint.finite 1, FixedPoint.finite 2]
    [FixedPoint.finite 2, FixedPoint.finite 1]
    [1, 2] [2, 1]
    [PFloat.finite 1, PFloat.finite 2] [PFloat.finite 2, PFloat.finite 1]
    (List.Perm.swap (FixedPoint.finite 2) (FixedPoint.finite 1) [])
    (List.Perm.swap 2 1 [])
    (List.Perm.swap (PFloat.finite 2) (PFloat.finite 1) [])
    (by decide) (by decide) (by decide) (by decide) (by decide)
